import Mathlib

/-!
Verification of the `hermes-peer-score` report pipeline scripts.

This development gives a shallow embedding of the two Python scripts
`scripts/generate_index.py` (the Indexer) and `scripts/download_reports.py`
(the Fetcher) and proves properties of the embedded functions.

Modelling conventions:
* Python strings are `List Char` (`Str` below); Python string formatting,
  slicing, `startswith`/`endswith` and `str.replace` are translated to
  explicit list operations.
* Python `datetime` values (as produced by `datetime.strptime`) are the
  structure `DT`; comparison of naive datetimes is chronological, which for
  valid calendar dates coincides with comparison of `dtSeconds` (seconds
  since the proleptic-Gregorian epoch used by `toOrdinal`);
  `timedelta(days=28)` is exactly `28 * 86400` seconds.
* Python float arithmetic is modelled by exact rationals `ℚ`; `round(x, n)`
  is modelled by round-half-to-even (`pyRound`), Python's rounding mode.
* I/O is modelled by oracles: the Indexer environment `IndexEnv` supplies the
  current time, the on-disk HTML existence check and the result of opening
  and JSON-decoding a report file; the Fetcher environment `FetchEnv`
  supplies the decoded manifest (or `none` if opening/decoding raised), the
  `CUTOFF_DATE` environment variable and the `curl` return code per URL.
* Exceptions escaping to the Fetcher's single function-level
  `try`/`except` are modelled with `Except Unit`; per-item handlers that
  `continue` are modelled by `Option`/`List.filterMap`.
-/

/-- Python strings, embedded as lists of characters. -/
abbrev Str := List Char

/-- `p.startswith(q)` for the embedded strings (`hasPfx pat s` is
`s.startswith(pat)`). -/
def hasPfx : Str → Str → Bool
  | [], _ => true
  | _ :: _, [] => false
  | p :: ps, c :: cs => if p = c then hasPfx ps cs else false

/-- `s.endswith(pat)`, via reversal. -/
def hasSfx (pat s : Str) : Bool := hasPfx pat.reverse s.reverse

/-- Worker for `replaceAll`, structurally recursive on a fuel argument so
that the kernel can evaluate it; every step consumes at least one character
and one unit of fuel, so with `fuel = s.length` the fuel never runs out. -/
def replaceAllAux (pat rep : Str) : Nat → Str → Str
  | _, [] => []
  | 0, s => s
  | fuel + 1, c :: rest =>
    if hasPfx pat (c :: rest) ∧ pat ≠ [] then
      rep ++ replaceAllAux pat rep fuel (List.drop (pat.length - 1) rest)
    else
      c :: replaceAllAux pat rep fuel rest

/-- Python `s.replace(pat, rep)`: replace every non-overlapping occurrence of
`pat`, scanning left to right.  `pat` is assumed nonempty (the scripts only
call it with nonempty literals). -/
def replaceAll (pat rep s : Str) : Str := replaceAllAux pat rep s.length s

/-- Numeric value of a decimal digit character. -/
def digitVal (c : Char) : Nat := c.toNat - 48

/-- Value of a string of decimal digits (most significant first). -/
def digitsToNat (l : Str) : Nat := l.foldl (fun a c => a * 10 + digitVal c) 0

/-- Zero-padded two-digit decimal rendering (`strftime` `%m`/`%d`/`%H`/`%M`). -/
def pad2 (n : Nat) : Str := [Nat.digitChar (n / 10 % 10), Nat.digitChar (n % 10)]

/-- Zero-padded four-digit decimal rendering (`strftime` `%Y`). -/
def pad4 (n : Nat) : Str :=
  [Nat.digitChar (n / 1000 % 10), Nat.digitChar (n / 100 % 10),
   Nat.digitChar (n / 10 % 10), Nat.digitChar (n % 10)]

/-- A parsed naive datetime, as produced by `datetime.strptime`. -/
structure DT where
  y : Nat
  m : Nat
  d : Nat
  hh : Nat
  mi : Nat
  s : Nat
deriving DecidableEq

/-- Gregorian leap-year test. -/
def isLeap (y : Nat) : Bool := y % 4 == 0 && (!(y % 100 == 0) || y % 400 == 0)

/-- Number of days in month `m` of year `y` (0 for out-of-range months). -/
def daysInMonth (y m : Nat) : Nat :=
  match m with
  | 1 => 31
  | 2 => if isLeap y then 29 else 28
  | 3 => 31
  | 4 => 30
  | 5 => 31
  | 6 => 30
  | 7 => 31
  | 8 => 31
  | 9 => 30
  | 10 => 31
  | 11 => 30
  | 12 => 31
  | _ => 0

/-- Days in the months of year `y` strictly before month `m`. -/
def daysBeforeMonth (y : Nat) : Nat → Nat
  | 0 => 0
  | m + 1 => daysBeforeMonth y m + daysInMonth y m

/-- Days strictly before January 1 of year `y` counting from year 1
(`datetime.toordinal` convention). -/
def daysBeforeYear (y : Nat) : Nat :=
  (y - 1) * 365 + (y - 1) / 4 - (y - 1) / 100 + (y - 1) / 400

/-- Proleptic-Gregorian ordinal day number of a datetime's date. -/
def toOrdinal (t : DT) : Nat := daysBeforeYear t.y + daysBeforeMonth t.y t.m + t.d

/-- Absolute second count of a naive datetime.  For valid calendar datetimes
this is strictly monotone in chronological order, so Python's `datetime`
comparisons are embedded as integer comparisons of `dtSeconds`. -/
def dtSeconds (t : DT) : Int :=
  ((toOrdinal t * 86400 + t.hh * 3600 + t.mi * 60 + t.s : Nat) : Int)

/-- Consume one expected literal separator character. -/
def sepChar (c : Char) : Str → Option Str
  | [] => none
  | x :: rest => if x = c then some rest else none

/-- Parse a 1-or-2 digit numeric field followed by more input: the maximal
digit run at the head of the string must have length 1 or 2 (Python's
`strptime` regexes for `%m`, `%d`, `%H`, `%M`, `%S` accept one or two digits,
and because each field is followed by a non-digit literal, a successful match
always consumes the whole digit run). -/
def field2 (s : Str) : Option (Nat × Str) :=
  let run := s.takeWhile Char.isDigit
  if 1 ≤ run.length ∧ run.length ≤ 2 then
    some (digitsToNat run, s.dropWhile Char.isDigit)
  else none

/-- Parse a trailing 1-or-2 digit numeric field: the rest of the string must
be exactly that digit run (`strptime` fails on unconverted trailing data). -/
def field2End (s : Str) : Option Nat :=
  let run := s.takeWhile Char.isDigit
  if (1 ≤ run.length ∧ run.length ≤ 2) ∧ s.dropWhile Char.isDigit = [] then
    some (digitsToNat run)
  else none

/-- Validate field ranges as `datetime.strptime` / the `datetime` constructor
do: year ≥ 1 (`MINYEAR`), month 1–12, day valid for the month, hour ≤ 23,
minute and second ≤ 59. -/
def mkDT (y mo d hh mi ss : Nat) : Option DT :=
  if 1 ≤ y ∧ (1 ≤ mo ∧ mo ≤ 12) ∧ (1 ≤ d ∧ d ≤ daysInMonth y mo) ∧
      hh ≤ 23 ∧ mi ≤ 59 ∧ ss ≤ 59 then
    some ⟨y, mo, d, hh, mi, ss⟩
  else none

/-- `datetime.strptime(s, '%Y-%m-%d_%H-%M-%S')`, returning `none` where
Python raises `ValueError`.  `%Y` demands exactly four digits; the small
fields accept one or two. -/
def parseTS (s : Str) : Option DT :=
  let ys := s.takeWhile Char.isDigit
  if ys.length = 4 then
    (sepChar '-' (s.dropWhile Char.isDigit)).bind fun s2 =>
    (field2 s2).bind fun p2 =>
    (sepChar '-' p2.2).bind fun s3 =>
    (field2 s3).bind fun p3 =>
    (sepChar '_' p3.2).bind fun s4 =>
    (field2 s4).bind fun p4 =>
    (sepChar '-' p4.2).bind fun p5 =>
    (field2 p5).bind fun p6 =>
    (sepChar '-' p6.2).bind fun p7 =>
    (field2End p7).bind fun ss =>
    mkDT (digitsToNat ys) p2.1 p3.1 p4.1 p6.1 ss
  else none

/-- `datetime.strptime(s, '%Y-%m-%d')` (time fields default to zero). -/
def parseDate (s : Str) : Option DT :=
  let ys := s.takeWhile Char.isDigit
  if ys.length = 4 then
    (sepChar '-' (s.dropWhile Char.isDigit)).bind fun s2 =>
    (field2 s2).bind fun p2 =>
    (sepChar '-' p2.2).bind fun s3 =>
    (field2End s3).bind fun d =>
    mkDT (digitsToNat ys) p2.1 d 0 0 0
  else none

/-- `strftime('%Y-%m-%d')`. -/
def fmtDate (t : DT) : Str := pad4 t.y ++ ('-' :: pad2 t.m) ++ ('-' :: pad2 t.d)

/-- English month name, for `strftime('%B')`. -/
def monthName (m : Nat) : Str :=
  match m with
  | 1 => "January".data
  | 2 => "February".data
  | 3 => "March".data
  | 4 => "April".data
  | 5 => "May".data
  | 6 => "June".data
  | 7 => "July".data
  | 8 => "August".data
  | 9 => "September".data
  | 10 => "October".data
  | 11 => "November".data
  | 12 => "December".data
  | _ => []

/-- `strftime('%B %d, %Y at %H:%M')`. -/
def fmtLong (t : DT) : Str :=
  monthName t.m ++ (' ' :: pad2 t.d) ++ (',' :: ' ' :: pad4 t.y) ++
    " at ".data ++ pad2 t.hh ++ (':' :: pad2 t.mi)

/-- Python `round` (round-half-to-even) from `ℚ` to `ℤ`. -/
def pyRound (x : ℚ) : ℤ :=
  let f : ℤ := ⌊x⌋
  if x - f < 1 / 2 then f
  else if 1 / 2 < x - f then f + 1
  else if Even f then f else f + 1

/-- Python `round(x, 1)`. -/
def pyRound1 (x : ℚ) : ℚ := (pyRound (10 * x) : ℚ) / 10

/-- Python `round(x, 2)`. -/
def pyRound2 (x : ℚ) : ℚ := (pyRound (100 * x) : ℚ) / 100

/-! ## Report JSON data and metadata extraction (`parse_report_metadata`) -/

/-- The fields of a decoded report JSON object that
`parse_report_metadata` reads.  Absent keys are represented by the
`.get` defaults (`0`, `{}`, …); `duration` and the optional string fields
keep their absence explicit because the code tests truthiness or applies a
non-zero default. -/
structure ReportJson where
  total_connections : Int
  successful_handshakes : Int
  /-- the `peers` mapping: peer id ↦ `total_message_count` (with its
  `.get` default `0` already applied) -/
  peers : List (Str × Int)
  /-- the `duration` value in nanoseconds, `none` when the key is absent -/
  duration : Option Int
  /-- truthiness of `data.get('ai_analysis')` -/
  ai_analysis : Bool
  /-- `data.get('validation_mode', 'delegated')`: `none` models an absent key -/
  validation_mode : Option Str
  /-- `data.get('validation_config', {}).get('hermes_version', 'unknown')`:
  `none` models an absent key -/
  hermes_version : Option Str

/-- Python truthiness of `data.get('duration')`: present and non-zero. -/
def truthyDuration : Option Int → Bool
  | some n => n != 0
  | none => false

/-- The success-rate expression of `parse_report_metadata` (line 21):
`(successful_handshakes / total_connections * 100) if total_connections > 0
else 0`. -/
def success_rate_of (data : ReportJson) : ℚ :=
  if 0 < data.total_connections then
    (data.successful_handshakes : ℚ) / (data.total_connections : ℚ) * 100
  else 0

/-- The metadata dictionary returned by `parse_report_metadata`. -/
structure Metadata where
  unique_peers : Nat
  total_connections : Int
  successful_handshakes : Int
  success_rate : ℚ
  test_duration : ℚ
  has_ai_analysis : Bool
  validation_mode : Str
  hermes_version : Str
  validation_success_rate : ℚ
  avg_latency_ms : ℚ
  messages_per_sec : ℚ
  error_rate : ℚ
  cpu_usage : ℚ
  memory_usage : ℚ
  cache_hit_rate : ℚ

/-- `parse_report_metadata`, after a successful `open`/`json.load`.  The
Python function catches every exception and returns `None`; failures of the
file read or JSON decode are modelled by the Indexer environment handing a
`none` to the caller instead (see `IndexEnv.readJson`). -/
def parse_report_metadata (data : ReportJson) : Metadata :=
  let success_rate := success_rate_of data
  let total_messages : Int := (data.peers.map (fun p => p.2)).sum
  { unique_peers := data.peers.length
    total_connections := data.total_connections
    successful_handshakes := data.successful_handshakes
    success_rate := pyRound1 success_rate
    test_duration :=
      if truthyDuration data.duration then
        pyRound1 ((data.duration.getD 0 : ℚ) / 1000000000)
      else 0
    has_ai_analysis := data.ai_analysis
    validation_mode := data.validation_mode.getD "delegated".data
    hermes_version := data.hermes_version.getD "unknown".data
    validation_success_rate := pyRound1 (success_rate * 100)
    avg_latency_ms := 0
    messages_per_sec :=
      if truthyDuration data.duration then
        pyRound1 ((total_messages : ℚ) / ((data.duration.getD 1 : ℚ) / 1000000000))
      else 0
    error_rate := if success_rate < 100 then pyRound2 (100 - success_rate) else 0
    cpu_usage := 0
    memory_usage := 0
    cache_hit_rate := 0 }

/-! ## Indexer (`generate_index`) -/

/-- A discovered report file: the name of its parent directory
(`json_file.parent.name`) and its filename (`json_file.name`). -/
structure FileEntry where
  dir : Str
  name : Str
deriving DecidableEq

/-- The Indexer's I/O environment: the current time (`datetime.now()` in
`dtSeconds` units), the on-disk existence oracle for the sibling `.html`
file, and the combined `open` + `json.load` oracle (`none` when either
raises, which `parse_report_metadata` turns into a skipped report). -/
structure IndexEnv where
  now : Int
  htmlExists : FileEntry → Bool
  readJson : FileEntry → Option ReportJson

/-- The first step of timestamp extraction (line 289):
`filename.replace('peer-score-report-', '').replace('.json', '')`. -/
def extractToken (name : Str) : Str :=
  replaceAll (".json".data) [] (replaceAll ("peer-score-report-".data) [] name)

/-- Lines 292–303: strip a validation-mode label appearing as a prefix
(new format) or, failing that, as a suffix (old format) of the timestamp
token. -/
def stripLabel (t : Str) : Str :=
  cond (hasPfx ("delegated-".data) t) (t.drop 10)
  (cond (hasPfx ("independent-".data) t) (t.drop 12)
  (cond (hasSfx ("-delegated".data) t) (t.take (t.length - 10))
  (cond (hasSfx ("-independent".data) t) (t.take (t.length - 12)) t)))

/-- `json_file.with_suffix('.html').name` for a discovered report filename
(which always ends in `.json` by the glob pattern): drop the 5-character
suffix and append `.html`. -/
def htmlSibling (name : Str) : Str := name.take (name.length - 5) ++ ".html".data

/-- A report descriptor, the dictionary appended to `reports`
(lines 328–335): the five explicitly constructed fields plus the spread
metadata. -/
structure Report where
  date : Str
  timestamp : Str
  formatted_date : Str
  html_path : Option Str
  json_path : Str
  meta : Metadata

/-- One iteration of the Indexer's discovery loop body for a single
discovered file (lines 285–338): extract and strip the timestamp token,
parse it, apply the 28-day retention filter, read the report metadata, and
build the report descriptor.  Every failing step returns `none`, which the
loop (`discover`) treats as `continue`. -/
def processFile (env : IndexEnv) (f : FileEntry) : Option Report :=
  let tok0 := extractToken f.name
  match parseTS (stripLabel tok0) with
  | none => none
  | some dt =>
    if dtSeconds dt < env.now - 28 * 86400 then none
    else
      match env.readJson f with
      | none => none
      | some data =>
        let md := parse_report_metadata data
        let hf : FileEntry := ⟨f.dir, htmlSibling f.name⟩
        some
          { date := fmtDate dt
            timestamp := tok0
            formatted_date := fmtLong dt
            html_path :=
              if env.htmlExists hf then some (f.dir ++ ('/' :: hf.name)) else none
            json_path := f.dir ++ ('/' :: f.name)
            meta := md }

/-- The glob pattern `**/peer-score-report-*.json` applied to a filename. -/
def matchesReportGlob (name : Str) : Bool :=
  hasPfx ("peer-score-report-".data) name && hasSfx (".json".data) name

/-- The discovery loop of `generate_index`: every globbed file is processed
independently; files whose processing fails are skipped. -/
def discover (env : IndexEnv) (files : List FileEntry) : List Report :=
  (files.filter (fun f => matchesReportGlob f.name)).filterMap (processFile env)

/-- `reports.sort(key=lambda x: x['timestamp'], reverse=True)` (line 341):
a stable sort, descending by the `timestamp` string under Python's
lexicographic (code-point) string order, here the lexicographic order on
`List Char`.  Embedded as a stable insertion sort, which computes the same
list as any stable descending sort. -/
def insertDescending (x : Report) : List Report → List Report
  | [] => [x]
  | y :: ys =>
    if (y.timestamp : Str) ≤ x.timestamp then x :: y :: ys
    else y :: insertDescending x ys

/-- See `insertDescending`. -/
def sortReports (l : List Report) : List Report := l.foldr insertDescending []

/-! ## Manifest generation (`generate_reports_manifest`) -/

/-- One element of a manifest entry's `files` array. -/
structure MFileEntry where
  filename : Str
  path : Str
  ftype : Str
deriving DecidableEq

/-- One element of the manifest's `reports` array. -/
structure ManifestEntry where
  date : Str
  timestamp : Str
  formatted_date : Str
  test_duration : ℚ
  unique_peers : Nat
  total_connections : Int
  success_rate : ℚ
  validation_mode : Str
  hermes_version : Str
  messages_per_sec : ℚ
  files : List MFileEntry

/-- The manifest object (`generated_at`, a wall-clock string, is elided). -/
structure ManifestData where
  total_reports : Nat
  reports : List ManifestEntry

/-- `f"peer-score-report-{ts}.json"`. -/
def jsonArtifactName (ts : Str) : Str :=
  "peer-score-report-".data ++ ts ++ ".json".data

/-- `f"peer-score-report-{ts}.html"`. -/
def htmlArtifactName (ts : Str) : Str :=
  "peer-score-report-".data ++ ts ++ ".html".data

/-- `f"peer-score-report-{ts}-data.js"`. -/
def jsArtifactName (ts : Str) : Str :=
  "peer-score-report-".data ++ ts ++ "-data.js".data

/-- Python truthiness of `report.get('html_path')`: present and nonempty. -/
def truthyStr : Option Str → Bool
  | some s => !s.isEmpty
  | none => false

/-- The `report_files` list built for one report (lines 230–256): the JSON
entry unconditionally, then the HTML entry when `report.get('html_path')` is
truthy, then the JS data entry unconditionally (no existence check). -/
def reportFilesOf (r : Report) : List MFileEntry :=
  ⟨jsonArtifactName r.timestamp,
   r.date ++ ('/' :: jsonArtifactName r.timestamp), "json".data⟩ ::
  ((if truthyStr r.html_path then
      [⟨htmlArtifactName r.timestamp,
        r.date ++ ('/' :: htmlArtifactName r.timestamp), "html".data⟩]
    else []) ++
   [⟨jsArtifactName r.timestamp,
     r.date ++ ('/' :: jsArtifactName r.timestamp), "javascript".data⟩])

/-- The manifest entry appended for one report (lines 258–270). -/
def mkManifestEntry (r : Report) : ManifestEntry :=
  { date := r.date
    timestamp := r.timestamp
    formatted_date := r.formatted_date
    test_duration := r.meta.test_duration
    unique_peers := r.meta.unique_peers
    total_connections := r.meta.total_connections
    success_rate := r.meta.success_rate
    validation_mode := r.meta.validation_mode
    hermes_version := r.meta.hermes_version
    messages_per_sec := r.meta.messages_per_sec
    files := reportFilesOf r }

/-- `generate_reports_manifest`: `total_reports` is the length of the input
list; the `reports` array is built by appending one entry per input report,
in loop order. -/
def generate_reports_manifest (rs : List Report) : ManifestData :=
  { total_reports := rs.length
    reports := rs.foldl (fun acc r => acc ++ [mkManifestEntry r]) [] }

/-- The report-list and manifest portion of `generate_index`: discover,
filter and sort the reports, then generate the manifest from the sorted
list.  (HTML template substitution, which renders one grid card per list
element in order and a "latest report" fragment from the list head, is not
modelled.) -/
def generate_index (env : IndexEnv) (files : List FileEntry) :
    List Report × ManifestData :=
  let rs := sortReports (discover env files)
  (rs, generate_reports_manifest rs)

/-! ## Fetcher (`download_reports_from_manifest`) -/

/-- One element of a manifest entry's `files` array as the Fetcher reads it
(only `path` and `filename` are accessed). -/
structure FetchFileInfo where
  filename : Str
  path : Str
deriving DecidableEq

/-- One element of the input manifest's `reports` array as the Fetcher
reads it. -/
structure FetchReport where
  date : Str
  validation_mode : Option Str
  hermes_version : Option Str
  files : List FetchFileInfo
deriving DecidableEq

/-- The decoded input manifest (`manifest.get('reports', [])`). -/
structure FetchManifest where
  reports : List FetchReport
deriving DecidableEq

/-- The fixed base URL of line 18. -/
def baseUrl : Str := "https://ethpandaops.github.io/hermes-peer-score/".data

/-- The Fetcher's I/O environment: the decoded manifest (`none` when opening
or JSON-decoding `manifest_file` raises), the `CUTOFF_DATE` environment
variable (`none` when unset), and the `curl` return code for each requested
URL. -/
structure FetchEnv where
  manifest : Option FetchManifest
  cutoff_env : Option Str
  dl : Str → Int

/-- The `for report in manifest.get('reports', [])` loop (lines 25–63),
returning the final `downloaded_count` together with the ordered log of
`(file_url, local_path)` pairs passed to `curl`.  A `ValueError` from
`datetime.strptime(report['date'], '%Y-%m-%d')` is not caught inside the
loop, so it aborts the remaining iterations (`Except.error`); a failed
download only leaves `files_downloaded` unincremented.  (Directory creation,
validation-mode statistics and printing have no bearing on the result and
are elided.) -/
def runFetch (dl : Str → Int) (cutoff : Int) :
    List FetchReport → Except Unit (Nat × List (Str × Str))
  | [] => .ok (0, [])
  | r :: rest =>
    match parseDate r.date with
    | none => .error ()
    | some d =>
      if dtSeconds d < cutoff then runFetch dl cutoff rest
      else
        let reqs := r.files.map fun fi =>
          (baseUrl ++ fi.path, "reports/".data ++ fi.path)
        let files_downloaded :=
          (r.files.filter fun fi => dl (baseUrl ++ fi.path) == 0).length
        match runFetch dl cutoff rest with
        | .error e => .error e
        | .ok (n, log) =>
          .ok ((if 0 < files_downloaded then n + 1 else n), reqs ++ log)

/-- `download_reports_from_manifest`: the whole body runs under one
`try`/`except` that logs and returns `False`; reaching the end returns
`True`.  A missing `CUTOFF_DATE` makes `strptime(None, …)` raise
(`TypeError`), also caught. -/
def download_reports_from_manifest (env : FetchEnv) : Bool :=
  match env.manifest with
  | none => false
  | some m =>
    match env.cutoff_env with
    | none => false
    | some cs =>
      match parseDate cs with
      | none => false
      | some cutoff =>
        match runFetch env.dl (dtSeconds cutoff) m.reports with
        | .error _ => false
        | .ok _ => true

/-- The `downloaded_count` printed as "Total reports preserved", when the
run completes its loop (`none` when it does not). -/
def preservedCount (env : FetchEnv) : Option Nat :=
  match env.manifest, env.cutoff_env with
  | some m, some cs =>
    match parseDate cs with
    | none => none
    | some cutoff =>
      match runFetch env.dl (dtSeconds cutoff) m.reports with
      | .error _ => none
      | .ok (n, _) => some n
  | _, _ => none

/-- The `__main__` block (lines 79–81): call
`download_reports_from_manifest` and then `sys.exit(0)` unconditionally —
the process exit status, here the modelled exit code. -/
def fetcherMain (env : FetchEnv) : Nat :=
  let _ := download_reports_from_manifest env
  0

/-! ## Concrete fixtures used by witnesses and counterexamples -/

/-- A minimal decoded report JSON (all `.get` defaults). -/
def emptyJson : ReportJson := ⟨0, 0, [], none, false, none, none⟩

/-- A report JSON with some connections. -/
def sampleJson : ReportJson :=
  ⟨10, 9, [("a".data, 5)], some 2000000000, false, none, none⟩

/-- An Indexer environment with "now" fixed at 2024-04-20 00:00:00, no HTML
files on disk, every JSON readable. -/
def mixedFormatEnv : IndexEnv :=
  ⟨dtSeconds ⟨2024, 4, 20, 0, 0, 0⟩, fun _ => false, fun _ => some emptyJson⟩

/-- A new-format (label-prefixed) report file dated 2024-04-01. -/
def newFormatFile : FileEntry :=
  ⟨"2024-04-01".data, "peer-score-report-delegated-2024-04-01_10-00-00.json".data⟩

/-- An old-format (bare-timestamp) report file dated 2024-04-15. -/
def oldFormatFile : FileEntry :=
  ⟨"2024-04-15".data, "peer-score-report-2024-04-15_10-00-00.json".data⟩

/-- An Indexer environment with "now" fixed at 2024-02-15 00:00:00. -/
def febEnv : IndexEnv :=
  ⟨dtSeconds ⟨2024, 2, 15, 0, 0, 0⟩, fun _ => false, fun _ => some emptyJson⟩

/-- Same as `febEnv` but with every HTML sibling present on disk. -/
def febHtmlEnv : IndexEnv :=
  ⟨dtSeconds ⟨2024, 2, 15, 0, 0, 0⟩, fun _ => true, fun _ => some emptyJson⟩

/-- A discovered report file dated 2024-01-01 00:00:00. -/
def janFile : FileEntry :=
  ⟨"2024-01-01".data, "peer-score-report-2024-01-01_00-00-00.json".data⟩

/-- A discovered report file dated 2024-02-01 00:00:00. -/
def febFile : FileEntry :=
  ⟨"2024-02-01".data, "peer-score-report-2024-02-01_00-00-00.json".data⟩

/-- A manifest entry whose `date` field does not parse as `%Y-%m-%d`. -/
def badDateEntry : FetchReport :=
  ⟨"not-a-date".data, none, none, [⟨"f.json".data, "2024-02-01/f.json".data⟩]⟩

/-- A manifest entry with a well-formed `date` and a single file. -/
def goodDateEntry : FetchReport :=
  ⟨"2024-02-01".data, none, none, [⟨"f.json".data, "2024-02-01/f.json".data⟩]⟩

/-- Serialization round trip from an Indexer-emitted manifest entry to the
fields the Fetcher reads back from `reports-manifest.json`. -/
def fetchView (e : ManifestEntry) : FetchReport :=
  ⟨e.date, some e.validation_mode, some e.hermes_version,
   e.files.map fun fi => ⟨fi.filename, fi.path⟩⟩

/-- A report descriptor as the discovery loop would build it, used as a
concrete input to manifest generation. -/
def sampleReport : Report :=
  { date := "2024-02-01".data
    timestamp := "2024-02-01_10-00-00".data
    formatted_date := "February 01, 2024 at 10:00".data
    html_path := none
    json_path := "2024-02-01/peer-score-report-2024-02-01_10-00-00.json".data
    meta := parse_report_metadata sampleJson }

/-! ## Helper lemmas -/

theorem hasPfx_self_append (p t : Str) : hasPfx p (p ++ t) = true := by
  induction p with
  | nil => rfl
  | cons c cs ih => simp [hasPfx, ih]

theorem hasPfx_mem {p q : Str} (h : hasPfx p q = true) : ∀ x ∈ p, x ∈ q := by
  induction p generalizing q with
  | nil => simp
  | cons c cs ih =>
    cases q with
    | nil => simp [hasPfx] at h
    | cons b bs =>
      simp only [hasPfx] at h
      split at h
      · next he =>
        subst he
        intro x hx
        rcases List.mem_cons.mp hx with rfl | hx
        · exact List.mem_cons_self _ _
        · exact List.mem_cons_of_mem _ (ih h x hx)
      · exact absurd h (by simp)

theorem sepChar_some {ch : Char} {s r : Str} (h : sepChar ch s = some r) :
    s = ch :: r := by
  cases s with
  | nil => simp [sepChar] at h
  | cons x xs =>
    simp only [sepChar] at h
    split at h
    · next he => cases h; subst he; rfl
    · cases h

theorem field2_some {s : Str} {v : Nat} {r : Str} (h : field2 s = some (v, r)) :
    s = s.takeWhile Char.isDigit ++ r ∧ s.takeWhile Char.isDigit ≠ [] := by
  simp only [field2] at h
  split at h
  · next hc =>
    cases h
    constructor
    · exact (List.takeWhile_append_dropWhile _ _).symm
    · intro he
      rw [he] at hc
      simp at hc
  · cases h

theorem field2End_some {s : Str} {v : Nat} (h : field2End s = some v) :
    s = s.takeWhile Char.isDigit ∧ s ≠ [] := by
  simp only [field2End] at h
  split at h
  · next hc =>
    have := (List.takeWhile_append_dropWhile Char.isDigit s).symm
    rw [hc.2] at this
    simp only [List.append_nil] at this
    refine ⟨this, ?_⟩
    intro he
    rw [he] at hc
    simp at hc
  · cases h

theorem parseTS_head_digit {t : Str} {dt : DT} (h : parseTS t = some dt) :
    ∃ c cs, t = c :: cs ∧ c.isDigit = true := by
  cases t with
  | nil => simp [parseTS] at h
  | cons c cs =>
    refine ⟨c, cs, rfl, ?_⟩
    by_contra hd
    have hd' : c.isDigit = false := by
      cases hcd : c.isDigit
      · rfl
      · exact absurd hcd hd
    simp [parseTS, List.takeWhile_cons, hd'] at h

/-- Every character of a string accepted by `parseTS` is a decimal digit, a
dash or an underscore. -/
theorem parseTS_chars {t : Str} {dt : DT} (h : parseTS t = some dt) :
    ∀ x ∈ t, x.isDigit = true ∨ x = '-' ∨ x = '_' := by
  simp only [parseTS] at h
  split at h
  case isFalse => cases h
  case isTrue h4 =>
  cases e1 : sepChar '-' (t.dropWhile Char.isDigit) with
  | none => rw [e1] at h; cases h
  | some s2 =>
  rw [e1] at h
  simp only [Option.some_bind] at h
  cases e2 : field2 s2 with
  | none => rw [e2] at h; cases h
  | some p2 =>
  rw [e2] at h
  simp only [Option.some_bind] at h
  obtain ⟨v2, r2⟩ := p2
  cases e3 : sepChar '-' r2 with
  | none => rw [e3] at h; cases h
  | some s3 =>
  rw [e3] at h
  simp only [Option.some_bind] at h
  cases e4 : field2 s3 with
  | none => rw [e4] at h; cases h
  | some p3 =>
  rw [e4] at h
  simp only [Option.some_bind] at h
  obtain ⟨v3, r3⟩ := p3
  cases e5 : sepChar '_' r3 with
  | none => rw [e5] at h; cases h
  | some s4 =>
  rw [e5] at h
  simp only [Option.some_bind] at h
  cases e6 : field2 s4 with
  | none => rw [e6] at h; cases h
  | some p4 =>
  rw [e6] at h
  simp only [Option.some_bind] at h
  obtain ⟨v4, r4⟩ := p4
  cases e7 : sepChar '-' r4 with
  | none => rw [e7] at h; cases h
  | some s5 =>
  rw [e7] at h
  simp only [Option.some_bind] at h
  cases e8 : field2 s5 with
  | none => rw [e8] at h; cases h
  | some p5 =>
  rw [e8] at h
  simp only [Option.some_bind] at h
  obtain ⟨v5, r5⟩ := p5
  cases e9 : sepChar '-' r5 with
  | none => rw [e9] at h; cases h
  | some s6 =>
  rw [e9] at h
  simp only [Option.some_bind] at h
  cases e10 : field2End s6 with
  | none => rw [e10] at h; cases h
  | some v6 =>
  intro x hx
  have ht := (List.takeWhile_append_dropWhile Char.isDigit t).symm
  rw [sepChar_some e1] at ht
  rw [(field2_some e2).1, sepChar_some e3] at ht
  rw [(field2_some e4).1, sepChar_some e5] at ht
  rw [(field2_some e6).1, sepChar_some e7] at ht
  rw [(field2_some e8).1, sepChar_some e9] at ht
  rw [(field2End_some e10).1] at ht
  rw [ht] at hx
  simp only [List.mem_append, List.mem_cons] at hx
  rcases hx with h1 | h1 | h1 | h1 | h1 | h1 | h1 | h1 | h1 | h1 | h1
  all_goals
    first
      | exact Or.inl (List.mem_takeWhile_imp h1)
      | (subst h1; right; simp)

theorem take_append_sub (t s : Str) :
    (t ++ s).take ((t ++ s).length - s.length) = t := by
  rw [List.length_append, Nat.add_sub_cancel, List.take_left]

theorem hasPfx_delegated_digit {c : Char} {cs : Str} (hc : c.isDigit = true) :
    hasPfx ("delegated-".data) (c :: cs) = false := by
  have hne : ¬ ('d' = c) := by rintro rfl; exact absurd hc (by decide)
  show (if 'd' = c then hasPfx ("elegated-".data) cs else false) = false
  simp [hne]

theorem hasPfx_independent_digit {c : Char} {cs : Str} (hc : c.isDigit = true) :
    hasPfx ("independent-".data) (c :: cs) = false := by
  have hne : ¬ ('i' = c) := by rintro rfl; exact absurd hc (by decide)
  show (if 'i' = c then hasPfx ("ndependent-".data) cs else false) = false
  simp [hne]

theorem hasSfx_self_append (p t : Str) : hasSfx p (t ++ p) = true := by
  unfold hasSfx
  rw [List.reverse_append]
  exact hasPfx_self_append _ _

theorem hasSfx_false_of_chars {pat s : Str} {w : Char} (hw : w ∈ pat.reverse)
    (hchars : ∀ x ∈ s, x.isDigit = true ∨ x = '-' ∨ x = '_')
    (hwbad : w.isDigit = false ∧ w ≠ '-' ∧ w ≠ '_') :
    hasSfx pat s = false := by
  cases hs : hasSfx pat s
  · rfl
  · exfalso
    unfold hasSfx at hs
    have := hasPfx_mem hs w hw
    have hws : w ∈ s := List.mem_reverse.mp this
    rcases hchars w hws with hd | hd | hd
    · rw [hd] at hwbad; exact absurd hwbad.1 (by simp)
    · exact hwbad.2.1 hd
    · exact hwbad.2.2 hd

theorem stripLabel_prefix_delegated {t : Str} :
    stripLabel ("delegated-".data ++ t) = t := by
  unfold stripLabel
  rw [hasPfx_self_append, Bool.cond_true]
  rfl

theorem stripLabel_prefix_independent {t : Str} :
    stripLabel ("independent-".data ++ t) = t := by
  unfold stripLabel
  have h1 : hasPfx ("delegated-".data) ("independent-".data ++ t) = false := rfl
  rw [h1, Bool.cond_false, hasPfx_self_append, Bool.cond_true]
  rfl

theorem stripLabel_suffix_delegated {t : Str} {dt : DT} (h : parseTS t = some dt) :
    stripLabel (t ++ "-delegated".data) = t := by
  obtain ⟨c, cs, rfl, hc⟩ := parseTS_head_digit h
  unfold stripLabel
  rw [List.cons_append, hasPfx_delegated_digit hc, Bool.cond_false,
    hasPfx_independent_digit hc, Bool.cond_false, ← List.cons_append,
    hasSfx_self_append, Bool.cond_true]
  exact take_append_sub (c :: cs) ("-delegated".data)

theorem stripLabel_suffix_independent {t : Str} {dt : DT}
    (h : parseTS t = some dt) :
    stripLabel (t ++ "-independent".data) = t := by
  obtain ⟨c, cs, rfl, hc⟩ := parseTS_head_digit h
  unfold stripLabel
  have h3 : hasSfx ("-delegated".data) ((c :: cs) ++ "-independent".data) = false := by
    unfold hasSfx
    rw [List.reverse_append]
    rfl
  rw [List.cons_append, hasPfx_delegated_digit hc, Bool.cond_false,
    hasPfx_independent_digit hc, Bool.cond_false, ← List.cons_append, h3,
    Bool.cond_false, hasSfx_self_append, Bool.cond_true]
  exact take_append_sub (c :: cs) ("-independent".data)

theorem stripLabel_bare {t : Str} {dt : DT} (h : parseTS t = some dt) :
    stripLabel t = t := by
  have hchars := parseTS_chars h
  obtain ⟨c, cs, rfl, hc⟩ := parseTS_head_digit h
  unfold stripLabel
  have h3 : hasSfx ("-delegated".data) (c :: cs) = false :=
    hasSfx_false_of_chars (w := 'g') (by decide) hchars (by decide)
  have h4 : hasSfx ("-independent".data) (c :: cs) = false :=
    hasSfx_false_of_chars (w := 'p') (by decide) hchars (by decide)
  rw [hasPfx_delegated_digit hc, Bool.cond_false,
    hasPfx_independent_digit hc, Bool.cond_false, h3, Bool.cond_false, h4,
    Bool.cond_false]

theorem discover_skip (env : IndexEnv) (pre post : List FileEntry)
    (f : FileEntry) (h : processFile env f = none) :
    discover env (pre ++ f :: post) = discover env (pre ++ post) := by
  unfold discover
  simp only [List.filter_append, List.filter_cons]
  cases hg : matchesReportGlob f.name
  · simp [hg]
  · simp [hg, List.filterMap_append, List.filterMap_cons, h]

theorem runFetch_ok_of_dates (dl : Str → Int) (cutoff : Int)
    (rs : List FetchReport)
    (h : ∀ r ∈ rs, (parseDate r.date).isSome = true) :
    ∃ n log, runFetch dl cutoff rs = .ok (n, log) := by
  induction rs with
  | nil => exact ⟨0, [], rfl⟩
  | cons r rest ih =>
    obtain ⟨n, log, hok⟩ := ih fun x hx => h x (List.mem_cons_of_mem _ hx)
    have hr := h r (List.mem_cons_self _ _)
    cases hd : parseDate r.date with
    | none => rw [hd] at hr; cases hr
    | some d =>
      by_cases hc : dtSeconds d < cutoff
      · simp only [runFetch, hd]
        rw [if_pos hc]
        exact ⟨n, log, hok⟩
      · simp only [runFetch, hd]
        rw [if_neg hc, hok]
        exact ⟨_, _, rfl⟩

theorem runFetch_error_of_bad_date (dl : Str → Int) (cutoff : Int)
    (pre post : List FetchReport) (r : FetchReport)
    (h : parseDate r.date = none) :
    runFetch dl cutoff (pre ++ r :: post) = .error () := by
  induction pre with
  | nil =>
    rw [List.nil_append]
    simp only [runFetch, h]
  | cons q qs ih =>
    rw [List.cons_append]
    cases hq : parseDate q.date with
    | none => simp only [runFetch, hq]
    | some d =>
      by_cases hc : dtSeconds d < cutoff
      · simp only [runFetch, hq]
        rw [if_pos hc]
        exact ih
      · simp only [runFetch, hq]
        rw [if_neg hc, ih]

theorem foldl_append_eq_map (rs : List Report) (acc : List ManifestEntry) :
    rs.foldl (fun a r => a ++ [mkManifestEntry r]) acc =
      acc ++ rs.map mkManifestEntry := by
  induction rs generalizing acc with
  | nil => simp
  | cons r rest ih => simp [List.foldl_cons, ih]

theorem processFile_eq_some (env : IndexEnv) (f : FileEntry) (dt : DT)
    (data : ReportJson)
    (h1 : parseTS (stripLabel (extractToken f.name)) = some dt)
    (h2 : ¬ dtSeconds dt < env.now - 28 * 86400)
    (h3 : env.readJson f = some data) :
    processFile env f = some
      { date := fmtDate dt
        timestamp := extractToken f.name
        formatted_date := fmtLong dt
        html_path := if env.htmlExists ⟨f.dir, htmlSibling f.name⟩ then
            some (f.dir ++ ('/' :: htmlSibling f.name)) else none
        json_path := f.dir ++ ('/' :: f.name)
        meta := parse_report_metadata data } := by
  simp only [processFile, h1, h3]
  rw [if_neg h2]

theorem processFile_inv {env : IndexEnv} {f : FileEntry} {r : Report}
    (h : processFile env f = some r) :
    ∃ dt data,
      parseTS (stripLabel (extractToken f.name)) = some dt ∧
      ¬ dtSeconds dt < env.now - 28 * 86400 ∧
      env.readJson f = some data ∧
      r = { date := fmtDate dt
            timestamp := extractToken f.name
            formatted_date := fmtLong dt
            html_path := if env.htmlExists ⟨f.dir, htmlSibling f.name⟩ then
                some (f.dir ++ ('/' :: htmlSibling f.name)) else none
            json_path := f.dir ++ ('/' :: f.name)
            meta := parse_report_metadata data } := by
  simp only [processFile] at h
  cases e1 : parseTS (stripLabel (extractToken f.name)) with
  | none => simp only [e1] at h; cases h
  | some dt =>
    simp only [e1] at h
    by_cases h2 : dtSeconds dt < env.now - 28 * 86400
    · rw [if_pos h2] at h; cases h
    · rw [if_neg h2] at h
      cases e2 : env.readJson f with
      | none => simp only [e2] at h; cases h
      | some data =>
        simp only [e2] at h
        exact ⟨dt, data, rfl, h2, rfl, (Option.some.inj h).symm⟩

theorem truthyStr_dir_path (d n : Str) :
    truthyStr (some (d ++ ('/' :: n))) = true := by
  unfold truthyStr
  cases d <;> simp

theorem mem_insertDescending {x a : Report} {l : List Report} :
    a ∈ insertDescending x l ↔ a = x ∨ a ∈ l := by
  induction l with
  | nil => simp [insertDescending]
  | cons y ys ih =>
    unfold insertDescending
    by_cases hle : (y.timestamp : Str) ≤ x.timestamp
    · rw [if_pos hle]
      simp only [List.mem_cons]
    · rw [if_neg hle]
      simp only [List.mem_cons, ih]
      tauto

theorem insertDescending_pairwise {x : Report} {l : List Report}
    (h : l.Pairwise fun a b => (b.timestamp : Str) ≤ a.timestamp) :
    (insertDescending x l).Pairwise
      fun a b => (b.timestamp : Str) ≤ a.timestamp := by
  induction l with
  | nil => simp [insertDescending]
  | cons y ys ih =>
    unfold insertDescending
    by_cases hle : (y.timestamp : Str) ≤ x.timestamp
    · rw [if_pos hle]
      refine List.Pairwise.cons ?_ h
      intro b hb
      rcases List.mem_cons.mp hb with rfl | hb
      · exact hle
      · exact le_trans (List.rel_of_pairwise_cons h hb) hle
    · rw [if_neg hle]
      have hxy : (x.timestamp : Str) ≤ y.timestamp := le_of_not_le hle
      refine List.Pairwise.cons ?_ (ih h.of_cons)
      intro b hb
      rcases mem_insertDescending.mp hb with rfl | hb
      · exact hxy
      · exact List.rel_of_pairwise_cons h hb

theorem sortReports_pairwise (l : List Report) :
    (sortReports l).Pairwise fun a b => (b.timestamp : Str) ≤ a.timestamp := by
  induction l with
  | nil => simp [sortReports]
  | cons x xs ih => exact insertDescending_pairwise ih

theorem insertDescending_perm (x : Report) (l : List Report) :
    (insertDescending x l).Perm (x :: l) := by
  induction l with
  | nil => exact List.Perm.refl _
  | cons y ys ih =>
    unfold insertDescending
    by_cases hle : (y.timestamp : Str) ≤ x.timestamp
    · rw [if_pos hle]
    · rw [if_neg hle]
      exact (ih.cons y).trans (List.Perm.swap x y ys)

theorem sortReports_perm (l : List Report) : (sortReports l).Perm l := by
  induction l with
  | nil => exact List.Perm.refl _
  | cons x xs ih => exact (insertDescending_perm x (sortReports xs)).trans (ih.cons x)

/-! ## Claims -/

/-- C1: for every report JSON processed by `parse_report_metadata`, the
computed success rate equals `successful_handshakes / total_connections *
100` when the division is evaluated (guard `total_connections > 0`), and is
exactly `0` whenever `total_connections` is `0`, so the division is never
evaluated with a zero divisor; the stored (rounded) field is then also `0`. -/
theorem claim_C1 (data : ReportJson) :
    (0 < data.total_connections →
      success_rate_of data =
        (data.successful_handshakes : ℚ) / (data.total_connections : ℚ) * 100) ∧
    (data.total_connections = 0 →
      success_rate_of data = 0 ∧ (parse_report_metadata data).success_rate = 0) := by
  constructor
  · intro h
    simp [success_rate_of, h]
  · intro h
    have h0 : ¬ 0 < data.total_connections := by rw [h]; exact lt_irrefl 0
    have hz : success_rate_of data = 0 := by simp [success_rate_of, h0]
    refine ⟨hz, ?_⟩
    show pyRound1 (success_rate_of data) = 0
    rw [hz]
    norm_num [pyRound1, pyRound]

/-- Witness for C1 at concrete reports. -/
theorem claim_C1_witness :
    success_rate_of sampleJson =
      (sampleJson.successful_handshakes : ℚ) /
        (sampleJson.total_connections : ℚ) * 100 ∧
    success_rate_of emptyJson = 0 ∧
    (parse_report_metadata emptyJson).success_rate = 0 :=
  ⟨(claim_C1 sampleJson).1 (by decide),
   ((claim_C1 emptyJson).2 rfl).1, ((claim_C1 emptyJson).2 rfl).2⟩

/-- C10: the manifest produced by `generate_reports_manifest` has
`total_reports` equal to the length of its `reports` array, with exactly one
entry per input descriptor, in input order. -/
theorem claim_C10 (rs : List Report) :
    (generate_reports_manifest rs).total_reports =
      (generate_reports_manifest rs).reports.length ∧
    (generate_reports_manifest rs).reports.length = rs.length ∧
    (generate_reports_manifest rs).reports = rs.map mkManifestEntry := by
  have hr : (generate_reports_manifest rs).reports = rs.map mkManifestEntry := by
    show rs.foldl _ [] = _
    rw [foldl_append_eq_map]
    rfl
  refine ⟨?_, ?_, hr⟩
  · rw [hr, List.length_map]
    rfl
  · rw [hr, List.length_map]

/-- C4: the Fetcher's modelled exit status is `0` for every environment;
manifest read/decode failure, a missing or malformed `CUTOFF_DATE`, and any
pattern of download failures are all absorbed (the function returns `false`
or `true`, never an uncaught exception, and the `__main__` block exits 0
regardless). -/
theorem claim_C4 (env : FetchEnv) :
    fetcherMain env = 0 ∧
    (env.manifest = none → download_reports_from_manifest env = false) ∧
    (env.cutoff_env = none → download_reports_from_manifest env = false) ∧
    (∀ cs, env.cutoff_env = some cs → parseDate cs = none →
      download_reports_from_manifest env = false) ∧
    (∀ m cs cd, env.manifest = some m → env.cutoff_env = some cs →
      parseDate cs = some cd →
      (∀ r ∈ m.reports, (parseDate r.date).isSome = true) →
      download_reports_from_manifest env = true) := by
  refine ⟨rfl, ?_, ?_, ?_, ?_⟩
  · intro h
    simp [download_reports_from_manifest, h]
  · intro h
    cases hm : env.manifest with
    | none => simp [download_reports_from_manifest, hm]
    | some m => simp [download_reports_from_manifest, hm, h]
  · intro cs hcs hparse
    cases hm : env.manifest with
    | none => simp [download_reports_from_manifest, hm]
    | some m => simp [download_reports_from_manifest, hm, hcs, hparse]
  · intro m cs cd hm hcs hcd hall
    obtain ⟨n, log, hok⟩ :=
      runFetch_ok_of_dates env.dl (dtSeconds cd) m.reports hall
    simp [download_reports_from_manifest, hm, hcs, hcd, hok]

/-- Witness for C4: a no-manifest environment and an environment whose every
download fails both behave as claimed. -/
theorem claim_C4_witness :
    fetcherMain ⟨none, none, fun _ => 0⟩ = 0 ∧
    download_reports_from_manifest ⟨none, none, fun _ => 0⟩ = false ∧
    download_reports_from_manifest
      ⟨some ⟨[goodDateEntry]⟩, some ("2024-01-01".data), fun _ => 7⟩ = true := by
  refine ⟨(claim_C4 ⟨none, none, fun _ => 0⟩).1,
    (claim_C4 ⟨none, none, fun _ => 0⟩).2.1 rfl,
    (claim_C4 ⟨some ⟨[goodDateEntry]⟩, some ("2024-01-01".data), fun _ => 7⟩).2.2.2.2
      ⟨[goodDateEntry]⟩ ("2024-01-01".data) ⟨2024, 1, 1, 0, 0, 0⟩ rfl rfl (by decide) ?_⟩
  intro r hr
  rcases List.mem_singleton.mp hr with rfl
  decide

/-- C2, amended: per-item error isolation holds in the Indexer (any report
file whose processing fails is skipped and the remaining files are processed
unchanged) and for failed downloads in the Fetcher (the loop always
completes when every entry's date parses, whatever the download outcomes);
but a malformed `date` field in a Fetcher manifest entry escapes the loop
and aborts processing of all remaining entries. -/
theorem claim_C2_amended :
    (∀ (env : IndexEnv) (pre post : List FileEntry) (f : FileEntry),
      processFile env f = none →
      discover env (pre ++ f :: post) = discover env (pre ++ post)) ∧
    (∀ (dl : Str → Int) (cutoff : Int) (rs : List FetchReport),
      (∀ r ∈ rs, (parseDate r.date).isSome = true) →
      ∃ n log, runFetch dl cutoff rs = .ok (n, log)) ∧
    (∀ (dl : Str → Int) (cutoff : Int) (pre post : List FetchReport)
        (r : FetchReport),
      parseDate r.date = none →
      runFetch dl cutoff (pre ++ r :: post) = .error ()) :=
  ⟨discover_skip, runFetch_ok_of_dates, runFetch_error_of_bad_date⟩

/-- Counterexample to C2 as stated: with every download succeeding, a
manifest whose first entry has a malformed `date` aborts the loop
(`Except.error`), so the following well-formed entry is never processed —
alone, that entry would have been downloaded and counted. -/
theorem claim_C2_counterexample :
    runFetch (fun _ => 0) 0 [badDateEntry, goodDateEntry] = .error () ∧
    runFetch (fun _ => 0) 0 [goodDateEntry] =
      .ok (1, [(baseUrl ++ "2024-02-01/f.json".data,
                "reports/".data ++ "2024-02-01/f.json".data)]) :=
  ⟨rfl, rfl⟩

/-- Witness for the amended C2 at concrete inputs. -/
theorem claim_C2_amended_witness :
    discover febEnv ([] ++ ⟨"x".data, "nope".data⟩ :: [febFile]) =
      discover febEnv ([] ++ [febFile]) ∧
    runFetch (fun _ => 5) 0 [goodDateEntry] ≠ .error () ∧
    runFetch (fun _ => 0) 0 ([goodDateEntry] ++ badDateEntry :: []) =
      .error () := by
  refine ⟨claim_C2_amended.1 febEnv [] [febFile] ⟨"x".data, "nope".data⟩ rfl,
    ?_, claim_C2_amended.2.2 (fun _ => 0) 0 [goodDateEntry] [] badDateEntry rfl⟩
  have hdates : ∀ r ∈ [goodDateEntry], (parseDate r.date).isSome = true := by
    intro r hr
    rcases List.mem_singleton.mp hr with rfl
    decide
  obtain ⟨n, log, hok⟩ :=
    claim_C2_amended.2.1 (fun _ => 5) 0 [goodDateEntry] hdates
  rw [hok]
  simp

/-- C6: the Indexer's timestamp extraction recovers the bare
`YYYY-MM-DD_HH-MM-SS` token from a validation-mode label in either position
(and leaves an unlabelled valid token unchanged); the spec's example
filename yields the expected token, which parses; and a file whose stripped
token does not parse is skipped while the rest of the run continues. -/
theorem claim_C6 :
    (stripLabel (extractToken
        "peer-score-report-delegated-2024-03-01_10-00-00.json".data) =
      "2024-03-01_10-00-00".data ∧
     parseTS ("2024-03-01_10-00-00".data) = some ⟨2024, 3, 1, 10, 0, 0⟩) ∧
    (∀ (t : Str) (dt : DT), parseTS t = some dt →
      stripLabel ("delegated-".data ++ t) = t ∧
      stripLabel ("independent-".data ++ t) = t ∧
      stripLabel (t ++ "-delegated".data) = t ∧
      stripLabel (t ++ "-independent".data) = t ∧
      stripLabel t = t) ∧
    (∀ (env : IndexEnv) (pre post : List FileEntry) (f : FileEntry),
      parseTS (stripLabel (extractToken f.name)) = none →
      discover env (pre ++ f :: post) = discover env (pre ++ post)) := by
  refine ⟨⟨by decide, by decide⟩, ?_, ?_⟩
  · intro t dt h
    exact ⟨stripLabel_prefix_delegated, stripLabel_prefix_independent,
      stripLabel_suffix_delegated h, stripLabel_suffix_independent h,
      stripLabel_bare h⟩
  · intro env pre post f h
    apply discover_skip
    simp only [processFile, h]

/-- Witness for C6 at a concrete token and a concrete unparsable file. -/
theorem claim_C6_witness :
    stripLabel ("delegated-".data ++ "2024-03-01_10-00-00".data) =
      "2024-03-01_10-00-00".data ∧
    discover febEnv
        ([] ++ ⟨"d".data, "peer-score-report-bad.json".data⟩ :: [febFile]) =
      discover febEnv ([] ++ [febFile]) :=
  ⟨(claim_C6.2.1 ("2024-03-01_10-00-00".data) ⟨2024, 3, 1, 10, 0, 0⟩ (by decide)).1,
   claim_C6.2.2 febEnv [] [febFile] ⟨"d".data, "peer-score-report-bad.json".data⟩
     (by decide)⟩

/-- C3, amended: the report list built by `generate_index` is the discovered
list stably sorted in descending lexicographic order of the `timestamp`
sort key (the display timestamp string, which retains any validation-mode
label), so the first element carries a maximal sort key; the first element
is the chronologically most recent report only when the retained filenames
share one naming format. -/
theorem claim_C3_amended (env : IndexEnv) (files : List FileEntry) :
    ((generate_index env files).1).Pairwise
      (fun a b => (b.timestamp : Str) ≤ a.timestamp) ∧
    ((generate_index env files).1).Perm (discover env files) ∧
    (∀ ts ∈ ((generate_index env files).1).map (fun r => r.timestamp),
      ∀ hts ∈ (((generate_index env files).1).map (fun r => r.timestamp)).head?,
      (ts : Str) ≤ hts) := by
  refine ⟨sortReports_pairwise _, sortReports_perm _, ?_⟩
  intro ts hts hhd hmem
  rcases List.mem_map.mp hts with ⟨r, hr, rfl⟩
  cases e : (generate_index env files).1 with
  | nil =>
    rw [e] at hr
    cases hr
  | cons hd tl =>
    have hh : hhd = hd.timestamp := by
      rw [e] at hmem
      simp only [List.map_cons, List.head?_cons, Option.mem_def,
        Option.some.injEq] at hmem
      exact hmem.symm
    subst hh
    rw [e] at hr
    rcases List.mem_cons.mp hr with rfl | hr
    · exact le_refl _
    · have hp := sortReports_pairwise (discover env files)
      have : (generate_index env files).1 = sortReports (discover env files) := rfl
      rw [this] at e
      rw [e] at hp
      exact List.rel_of_pairwise_cons hp hr

/-- Counterexample to C3 as stated: two retained reports, one new-format
(label-prefixed) dated 2024-04-01 and one old-format (bare) dated
2024-04-15.  The sort key of the older report (`delegated-2024-04-01…`)
is lexicographically greater than that of the newer one (`2024-04-15…`),
so the chronologically most recent report is **not** the first element. -/
theorem claim_C3_counterexample :
    ((generate_index mixedFormatEnv [newFormatFile, oldFormatFile]).1.map
        (fun r => r.timestamp)) =
      ["delegated-2024-04-01_10-00-00".data, "2024-04-15_10-00-00".data] ∧
    parseTS (stripLabel ("delegated-2024-04-01_10-00-00".data)) =
      some ⟨2024, 4, 1, 10, 0, 0⟩ ∧
    parseTS (stripLabel ("2024-04-15_10-00-00".data)) =
      some ⟨2024, 4, 15, 10, 0, 0⟩ ∧
    dtSeconds ⟨2024, 4, 1, 10, 0, 0⟩ < dtSeconds ⟨2024, 4, 15, 10, 0, 0⟩ :=
  ⟨by decide, by decide, by decide, by decide⟩

/-- Witness for the amended C3 at the concrete mixed-format environment. -/
theorem claim_C3_amended_witness :
    (("2024-04-15_10-00-00".data : Str) ≤
      "delegated-2024-04-01_10-00-00".data) :=
  (claim_C3_amended mixedFormatEnv [newFormatFile, oldFormatFile]).2.2
    ("2024-04-15_10-00-00".data) (by decide)
    ("delegated-2024-04-01_10-00-00".data) (by decide)

/-- C5: both components apply the 28-day rule as claimed — the Indexer
discards a discovered report exactly when its parsed timestamp is strictly
before `now - 28 days` (and keeps a readable one at or after it); the
Fetcher skips a manifest entry exactly when its date is strictly before the
cutoff (and attempts its files otherwise); with "now" fixed at 2024-02-15,
the 2024-01-01 report is excluded and the 2024-02-01 report included. -/
theorem claim_C5 :
    (∀ (env : IndexEnv) (f : FileEntry) (dt : DT),
      parseTS (stripLabel (extractToken f.name)) = some dt →
      dtSeconds dt < env.now - 28 * 86400 →
      processFile env f = none) ∧
    (∀ (env : IndexEnv) (f : FileEntry) (dt : DT) (data : ReportJson),
      parseTS (stripLabel (extractToken f.name)) = some dt →
      ¬ dtSeconds dt < env.now - 28 * 86400 →
      env.readJson f = some data →
      (processFile env f).isSome = true) ∧
    (∀ (dl : Str → Int) (cutoff : Int) (r : FetchReport)
        (rest : List FetchReport) (d : DT),
      parseDate r.date = some d → dtSeconds d < cutoff →
      runFetch dl cutoff (r :: rest) = runFetch dl cutoff rest) ∧
    (∀ (dl : Str → Int) (cutoff : Int) (r : FetchReport)
        (rest : List FetchReport) (d : DT) (n : Nat) (log : List (Str × Str)),
      parseDate r.date = some d → ¬ dtSeconds d < cutoff →
      runFetch dl cutoff rest = .ok (n, log) →
      runFetch dl cutoff (r :: rest) = .ok
        ((if 0 < (r.files.filter fun fi => dl (baseUrl ++ fi.path) == 0).length
          then n + 1 else n),
         (r.files.map fun fi =>
           (baseUrl ++ fi.path, "reports/".data ++ fi.path)) ++ log)) ∧
    ((processFile febEnv janFile).isSome = false ∧
     (processFile febEnv febFile).isSome = true) := by
  refine ⟨?_, ?_, ?_, ?_, by decide, by decide⟩
  · intro env f dt h1 h2
    simp only [processFile, h1]
    rw [if_pos h2]
  · intro env f dt data h1 h2 h3
    rw [processFile_eq_some env f dt data h1 h2 h3]
    rfl
  · intro dl cutoff r rest d hd hc
    simp only [runFetch, hd]
    rw [if_pos hc]
  · intro dl cutoff r rest d n log hd hc hok
    simp only [runFetch, hd]
    rw [if_neg hc, hok]

/-- Witness for C5 at concrete reports and manifest entries. -/
theorem claim_C5_witness :
    processFile febEnv janFile = none ∧
    (processFile febEnv febFile).isSome = true ∧
    runFetch (fun _ => 0) (dtSeconds ⟨2024, 2, 15, 0, 0, 0⟩ - 28 * 86400)
        [⟨"2024-01-01".data, none, none, []⟩] =
      runFetch (fun _ => 0) (dtSeconds ⟨2024, 2, 15, 0, 0, 0⟩ - 28 * 86400) [] ∧
    runFetch (fun _ => 0) 0 [goodDateEntry] = .ok
      ((if 0 < (goodDateEntry.files.filter
            fun fi => (fun _ => (0 : Int)) (baseUrl ++ fi.path) == 0).length
        then 0 + 1 else 0),
       (goodDateEntry.files.map fun fi =>
         (baseUrl ++ fi.path, "reports/".data ++ fi.path)) ++ []) :=
  ⟨claim_C5.1 febEnv janFile ⟨2024, 1, 1, 0, 0, 0⟩ (by decide) (by decide),
   claim_C5.2.1 febEnv febFile ⟨2024, 2, 1, 0, 0, 0⟩ emptyJson (by decide)
     (by decide) rfl,
   claim_C5.2.2.1 (fun _ => 0) (dtSeconds ⟨2024, 2, 15, 0, 0, 0⟩ - 28 * 86400)
     ⟨"2024-01-01".data, none, none, []⟩ [] ⟨2024, 1, 1, 0, 0, 0⟩
     (by decide) (by decide),
   claim_C5.2.2.2.1 (fun _ => 0) 0 goodDateEntry [] ⟨2024, 2, 1, 0, 0, 0⟩ 0 []
     (by decide) (by decide) rfl⟩

/-- C7: under the Fetcher loop, a report increments `downloaded_count`
exactly when at least one of its files downloaded with `curl` status 0; a
non-zero status never counts toward `files_downloaded`, so a report whose
only file fails is not counted as preserved. -/
theorem claim_C7 (dl : Str → Int) (cutoff : Int) (r : FetchReport)
    (rest : List FetchReport) (d : DT) (n : Nat) (log : List (Str × Str))
    (hd : parseDate r.date = some d) (hcut : ¬ dtSeconds d < cutoff)
    (hrest : runFetch dl cutoff rest = .ok (n, log)) :
    ∃ m reqs, runFetch dl cutoff (r :: rest) = .ok (m, reqs) ∧
      (m = n + 1 ↔ ∃ fi ∈ r.files, dl (baseUrl ++ fi.path) = 0) ∧
      (m = n ↔ ¬ ∃ fi ∈ r.files, dl (baseUrl ++ fi.path) = 0) ∧
      (∀ fi, r.files = [fi] → dl (baseUrl ++ fi.path) ≠ 0 → m = n) := by
  have hiff : 0 < (r.files.filter
      fun fi => dl (baseUrl ++ fi.path) == 0).length ↔
      ∃ fi ∈ r.files, dl (baseUrl ++ fi.path) = 0 := by
    rw [List.length_pos_iff_exists_mem]
    constructor
    · rintro ⟨fi, hfi⟩
      rcases List.mem_filter.mp hfi with ⟨hmem, hp⟩
      exact ⟨fi, hmem, beq_iff_eq.mp hp⟩
    · rintro ⟨fi, hmem, hp⟩
      exact ⟨fi, List.mem_filter.mpr ⟨hmem, beq_iff_eq.mpr hp⟩⟩
  refine ⟨(if 0 < (r.files.filter
      fun fi => dl (baseUrl ++ fi.path) == 0).length then n + 1 else n),
    (r.files.map fun fi =>
      (baseUrl ++ fi.path, "reports/".data ++ fi.path)) ++ log, ?_, ?_, ?_, ?_⟩
  · simp only [runFetch, hd]
    rw [if_neg hcut, hrest]
  · by_cases h0 : 0 < (r.files.filter
        fun fi => dl (baseUrl ++ fi.path) == 0).length
    · rw [if_pos h0]
      exact ⟨fun _ => hiff.mp h0, fun _ => rfl⟩
    · rw [if_neg h0]
      constructor
      · intro hn
        omega
      · intro hex
        exact absurd (hiff.mpr hex) h0
  · by_cases h0 : 0 < (r.files.filter
        fun fi => dl (baseUrl ++ fi.path) == 0).length
    · rw [if_pos h0]
      constructor
      · intro hn
        omega
      · intro hnot
        exact absurd (hiff.mp h0) hnot
    · rw [if_neg h0]
      exact ⟨fun _ => fun hex => absurd (hiff.mpr hex) h0, fun _ => rfl⟩
  · intro fi hfiles hfail
    have hnot : ¬ ∃ x ∈ r.files, dl (baseUrl ++ x.path) = 0 := by
      rintro ⟨x, hx, hp⟩
      rw [hfiles] at hx
      rcases List.mem_singleton.mp hx with rfl
      exact hfail hp
    rw [if_neg fun h0 => absurd (hiff.mp h0) hnot]

/-- Witness for C7: a manifest entry whose single file download returns
status 22 completes the loop without being counted as preserved. -/
theorem claim_C7_witness :
    runFetch (fun _ => 22) 0 [goodDateEntry] ≠ .error () ∧
    runFetch (fun _ => 22) 0 [goodDateEntry] =
      .ok (0, [(baseUrl ++ "2024-02-01/f.json".data,
                "reports/".data ++ "2024-02-01/f.json".data)]) := by
  obtain ⟨m, reqs, hrun, h1, h2, h3⟩ :=
    claim_C7 (fun _ => 22) 0 goodDateEntry [] ⟨2024, 2, 1, 0, 0, 0⟩ 0 []
      (by decide) (by decide) rfl
  refine ⟨?_, by rfl⟩
  rw [hrun]
  simp

/-- C8: for a report descriptor produced by the discovery loop, the
manifest entry's `files` array lists the JSON artifact unconditionally, the
HTML artifact exactly when the sibling HTML file existed on disk at
discovery time, and the JS data artifact unconditionally (its existence is
never checked — no oracle for it even appears in the model). -/
theorem claim_C8 (env : IndexEnv) (f : FileEntry) (r : Report)
    (h : processFile env f = some r) :
    (mkManifestEntry r).files =
      ⟨jsonArtifactName r.timestamp,
       r.date ++ ('/' :: jsonArtifactName r.timestamp), "json".data⟩ ::
      ((if env.htmlExists ⟨f.dir, htmlSibling f.name⟩ then
          [⟨htmlArtifactName r.timestamp,
            r.date ++ ('/' :: htmlArtifactName r.timestamp), "html".data⟩]
        else []) ++
       [⟨jsArtifactName r.timestamp,
         r.date ++ ('/' :: jsArtifactName r.timestamp), "javascript".data⟩]) := by
  obtain ⟨dt, data, h1, h2, h3, rfl⟩ := processFile_inv h
  show reportFilesOf _ = _
  unfold reportFilesOf
  cases hex : env.htmlExists ⟨f.dir, htmlSibling f.name⟩
  · simp [hex, truthyStr]
  · simp [hex, truthyStr_dir_path]

/-- Witness for C8 at a concrete environment with the HTML sibling on
disk. -/
theorem claim_C8_witness :
    (mkManifestEntry
      { date := "2024-02-01".data,
        timestamp := "2024-02-01_00-00-00".data,
        formatted_date := "February 01, 2024 at 00:00".data,
        html_path :=
          some ("2024-02-01/peer-score-report-2024-02-01_00-00-00.html".data),
        json_path :=
          "2024-02-01/peer-score-report-2024-02-01_00-00-00.json".data,
        meta := parse_report_metadata emptyJson }).files =
      ⟨jsonArtifactName ("2024-02-01_00-00-00".data),
       "2024-02-01".data ++
         ('/' :: jsonArtifactName ("2024-02-01_00-00-00".data)), "json".data⟩ ::
      ((if febHtmlEnv.htmlExists ⟨febFile.dir, htmlSibling febFile.name⟩ then
          [⟨htmlArtifactName ("2024-02-01_00-00-00".data),
            "2024-02-01".data ++
              ('/' :: htmlArtifactName ("2024-02-01_00-00-00".data)),
            "html".data⟩]
        else []) ++
       [⟨jsArtifactName ("2024-02-01_00-00-00".data),
         "2024-02-01".data ++
           ('/' :: jsArtifactName ("2024-02-01_00-00-00".data)),
         "javascript".data⟩]) :=
  claim_C8 febHtmlEnv febFile _ (by rfl)

/-- The Fetcher's request log when every manifest entry survives the cutoff:
one `(file_url, local_path)` pair per listed file, in order. -/
theorem runFetch_log (dl : Str → Int) (cutoff : Int) (l : List FetchReport)
    (h : ∀ r ∈ l, ∃ d, parseDate r.date = some d ∧ ¬ dtSeconds d < cutoff) :
    ∃ n, runFetch dl cutoff l =
      .ok (n, l.flatMap fun r => r.files.map fun fi =>
        (baseUrl ++ fi.path, "reports/".data ++ fi.path)) := by
  induction l with
  | nil => exact ⟨0, rfl⟩
  | cons r rest ih =>
    obtain ⟨n, hok⟩ := ih fun x hx => h x (List.mem_cons_of_mem _ hx)
    obtain ⟨d, hd, hcut⟩ := h r (List.mem_cons_self _ _)
    refine ⟨(if 0 < (r.files.filter
      fun fi => dl (baseUrl ++ fi.path) == 0).length then n + 1 else n), ?_⟩
    simp only [runFetch, hd]
    rw [if_neg hcut, hok, List.flatMap_cons]

/-- Pointwise bridge between the Indexer's emitted file entries and the
file records the Fetcher deserializes: paths are carried over unchanged. -/
theorem flatMap_fetchView (rs : List Report) :
    ((rs.map (fetchView ∘ mkManifestEntry)).flatMap fun fr =>
      fr.files.map fun fi =>
        (baseUrl ++ fi.path, "reports/".data ++ fi.path)) =
    rs.flatMap fun r => (reportFilesOf r).map fun fi =>
      (baseUrl ++ fi.path, "reports/".data ++ fi.path) := by
  induction rs with
  | nil => rfl
  | cons r rest ih =>
    simp only [List.map_cons, List.flatMap_cons, ih]
    congr 1
    simp [fetchView, mkManifestEntry, List.map_map, Function.comp]

/-- C9: round trip of path construction — for a manifest generated by the
Indexer whose entries all survive the Fetcher's cutoff, the Fetcher requests
exactly the fixed base URL concatenated with each listed `path`, storing to
`reports/` concatenated with the same `path`. -/
theorem claim_C9 (rs : List Report) (dl : Str → Int) (cutoff : Int)
    (h : ∀ r ∈ rs, ∃ d, parseDate r.date = some d ∧ ¬ dtSeconds d < cutoff) :
    ∃ n, runFetch dl cutoff
        ((generate_reports_manifest rs).reports.map fetchView) =
      .ok (n, rs.flatMap fun r => (reportFilesOf r).map fun fi =>
        ("https://ethpandaops.github.io/hermes-peer-score/".data ++ fi.path,
         "reports/".data ++ fi.path)) := by
  have hreports : (generate_reports_manifest rs).reports =
      rs.map mkManifestEntry := by
    show rs.foldl _ [] = _
    rw [foldl_append_eq_map]
    rfl
  have hdates : ∀ x ∈ rs.map (fetchView ∘ mkManifestEntry),
      ∃ d, parseDate x.date = some d ∧ ¬ dtSeconds d < cutoff := by
    intro x hx
    rcases List.mem_map.mp hx with ⟨r, hr, rfl⟩
    exact h r hr
  obtain ⟨n, hok⟩ :=
    runFetch_log dl cutoff (rs.map (fetchView ∘ mkManifestEntry)) hdates
  refine ⟨n, ?_⟩
  rw [hreports, List.map_map, hok, flatMap_fetchView]
  rfl

/-- Witness for C9: the one-report manifest built from `sampleReport` makes
the Fetcher request exactly the base URL plus each listed path. -/
theorem claim_C9_witness :
    runFetch (fun _ => 0) 0
        ((generate_reports_manifest [sampleReport]).reports.map fetchView) ≠
      .error () ∧
    runFetch (fun _ => 0) 0
        ((generate_reports_manifest [sampleReport]).reports.map fetchView) =
      .ok (1,
        [("https://ethpandaops.github.io/hermes-peer-score/2024-02-01/peer-score-report-2024-02-01_10-00-00.json".data,
          "reports/2024-02-01/peer-score-report-2024-02-01_10-00-00.json".data),
         ("https://ethpandaops.github.io/hermes-peer-score/2024-02-01/peer-score-report-2024-02-01_10-00-00-data.js".data,
          "reports/2024-02-01/peer-score-report-2024-02-01_10-00-00-data.js".data)]) := by
  have hdates : ∀ r ∈ [sampleReport],
      ∃ d, parseDate r.date = some d ∧ ¬ dtSeconds d < 0 := by
    intro r hr
    rcases List.mem_singleton.mp hr with rfl
    exact ⟨⟨2024, 2, 1, 0, 0, 0⟩, by decide, by decide⟩
  obtain ⟨n, hok⟩ := claim_C9 [sampleReport] (fun _ => 0) 0 hdates
  refine ⟨?_, by rfl⟩
  rw [hok]
  simp
